import Mathlib

/-!
# Verification of the desktop-organizer item classifier and grid layout

Shallow embedding of the core of `desktop_organizer.py` (class
`DesktopOrganizer`): the multi-strategy item classifier
(`classify_item`, `_classify_file`, `_classify_shortcut`,
`_classify_folder`), the grid coordinate calculator
(`calculate_grid_position`) and the configuration loader
(`_load_config`).

Python strings are modelled by `String`; Python's substring test
`a in b` by `pyIn`, `str.lower()` by `lowerString` (ASCII lowering, the
only case the category table exercises), `str.split()` by `pySplit`.
Scores in `_classify_file` / `_classify_shortcut` are accumulated in
steps of `1` and `0.5`; every score is a multiple of `0.5` and the float
arithmetic on such small halves is exact, so scores are represented as
natural numbers scaled by 2 (`+1` becomes `+2`, the `0.5` bonus becomes
`+1`).
-/

set_option autoImplicit false

namespace DesktopOrganizer

/-- ASCII lowering of one character, as Python's `str.lower()` acts on the
ASCII strings appearing in the category table. -/
def lowerChar (c : Char) : Char :=
  if 'A' ≤ c ∧ c ≤ 'Z' then Char.ofNat (c.toNat + 32) else c

/-- Model of Python `str.lower()`. -/
def lowerString (s : String) : String :=
  String.mk (s.data.map lowerChar)

/-- `strStartsWith pat s` : `pat` is a prefix of `s` (on character lists). -/
def strStartsWith : List Char → List Char → Bool
  | [], _ => true
  | _ :: _, [] => false
  | a :: as, b :: bs => a == b && strStartsWith as bs

/-- `hasSubAux pat s` : `pat` occurs as a contiguous run inside `s`. -/
def hasSubAux (pat : List Char) : List Char → Bool
  | [] => strStartsWith pat []
  | c :: cs => strStartsWith pat (c :: cs) || hasSubAux pat cs

/-- Model of Python's substring test `pat in s`. -/
def pyIn (pat s : String) : Bool :=
  hasSubAux pat.data s.data

/-- Accumulator pass for `pySplit`. -/
def pySplitAux : List Char → List Char → List String
  | [], acc => if acc.isEmpty then [] else [String.mk acc.reverse]
  | c :: cs, acc =>
    if c.isWhitespace then
      if acc.isEmpty then pySplitAux cs [] else String.mk acc.reverse :: pySplitAux cs []
    else pySplitAux cs (c :: acc)

/-- Model of Python `str.split()` with no argument: split on runs of
whitespace, dropping empty fields. -/
def pySplit (s : String) : List String :=
  pySplitAux s.data []

/-- One entry of the category table: `config["categories"]` maps a category
name to its extension list and keyword list (insertion order preserved, so
the table is a list). -/
structure CategoryRule where
  name : String
  extensions : List String
  keywords : List String
  deriving DecidableEq, Repr

/-- The built-in default category table of `_load_config`
(`desktop_organizer.py` lines 142-179). -/
def defaultCategories : List CategoryRule :=
  [ ⟨"Documents", [".pdf", ".doc", ".docx", ".txt", ".rtf", ".odt"],
      ["document", "paper", "report", "manual"]⟩,
    ⟨"Images", [".jpg", ".jpeg", ".png", ".gif", ".bmp", ".tiff", ".svg"],
      ["photo", "image", "picture", "screenshot"]⟩,
    ⟨"Videos", [".mp4", ".avi", ".mkv", ".mov", ".wmv", ".flv"],
      ["video", "movie", "clip"]⟩,
    ⟨"Audio", [".mp3", ".wav", ".flac", ".aac", ".ogg"],
      ["music", "audio", "sound"]⟩,
    ⟨"Archives", [".zip", ".rar", ".7z", ".tar", ".gz"],
      ["archive", "backup", "compressed"]⟩,
    ⟨"Applications", [".exe", ".msi", ".dmg", ".app"],
      ["installer", "setup", "application"]⟩,
    ⟨"Spreadsheets", [".xls", ".xlsx", ".csv", ".ods"],
      ["spreadsheet", "data", "excel"]⟩,
    ⟨"Presentations", [".ppt", ".pptx", ".odp"],
      ["presentation", "slides", "powerpoint"]⟩,
    ⟨"Code", [".py", ".js", ".html", ".css", ".java", ".cpp", ".c", ".php"],
      ["code", "script", "program", "source"]⟩ ]

/-- A file as the classifier sees it: `stem` and `ext` are the path's stem
and suffix (the classifier lowercases them itself), `target` is the stem of
the resolved shortcut target (`_get_shortcut_target` composed with
`Path(...).stem`, `none` on any failure), `mimeMain` is the main type of
`mimetypes.guess_type` (`none` when no MIME mapping is known). -/
structure FileDesc where
  stem : String
  ext : String
  target : Option String
  mimeMain : Option String
  deriving DecidableEq, Repr

/-- The whole-word-boundary bonus test of `_classify_file` (line 319):
keyword equals the subject text, or keyword followed / preceded by a space
occurs inside it. -/
def wordBonus (k text : String) : Bool :=
  k == text || pyIn (k ++ " ") text || pyIn (" " ++ k) text

/-- Keyword score of one category in `_classify_file` (lines 310-320),
scaled by 2: `+2` per keyword occurring in `text`, `+1` more when
`wordBonus` holds for that keyword. -/
def fileScore (text : String) (r : CategoryRule) : Nat :=
  r.keywords.foldl
    (fun acc k =>
      if pyIn k text then acc + 2 + (if wordBonus k text then 1 else 0) else acc)
    0

/-- The bonus test of `_classify_shortcut` (line 377): keyword equals the
shortcut stem, or keyword is one of the whitespace-separated words of the
shortcut stem. -/
def shortcutBonus (k sname : String) : Bool :=
  k == sname || (pySplit sname).contains k

/-- Keyword score of one category in `_classify_shortcut` (lines 369-378),
scaled by 2. -/
def shortcutScore (combined sname : String) (r : CategoryRule) : Nat :=
  r.keywords.foldl
    (fun acc k =>
      if pyIn k combined then acc + 2 + (if shortcutBonus k sname then 1 else 0) else acc)
    0

/-- The best-match loop shared by `_classify_file` (lines 306-325) and
`_classify_shortcut` (lines 364-383): `best_match`/`best_score` start at
`None`/`0` and are overwritten only on a strictly greater score. -/
def bestLoop (f : CategoryRule → Nat) :
    List CategoryRule → Option String → Nat → Option String × Nat
  | [], b, s => (b, s)
  | r :: rest, b, s =>
    if s < f r then bestLoop f rest (some r.name) (f r)
    else bestLoop f rest b s

/-- Extension phase of `_classify_file` (lines 291-303): first category
whose extension list contains the (lowercased) extension wins, except that
`.exe`/`.msi` additionally require a keyword of the same category inside
the stem, the rule being skipped otherwise. -/
def extPhase : List CategoryRule → String → String → Option String
  | [], _, _ => none
  | r :: rest, ext, stem =>
    if r.extensions.contains ext then
      if ext == ".exe" || ext == ".msi" then
        if r.keywords.any (fun k => pyIn k stem) then some r.name
        else extPhase rest ext stem
      else some r.name
    else extPhase rest ext stem

/-- MIME fallback of `_classify_file` (lines 331-342), keyed on the main
MIME type. -/
def mimeFallback : Option String → String
  | none => "Other"
  | some m =>
    if m == "image" then "Media Tools"
    else if m == "video" then "Media Tools"
    else if m == "audio" then "Media Tools"
    else if m == "text" then "Coding Tools"
    else "Other"

/-- Keyword-scoring phase plus MIME fallback plus default of
`_classify_file` (lines 305-346). The guard mirrors Python's
`if best_match and best_score > 0` (a `None` or empty-string best match is
falsy). -/
def keywordPhase (cats : List CategoryRule) (stem : String) (mime : Option String) : String :=
  match bestLoop (fileScore stem) cats none 0 with
  | (some c, s) => if c ≠ "" ∧ 0 < s then c else mimeFallback mime
  | (none, _) => mimeFallback mime

/-- The combined text of `_classify_shortcut` (lines 350-359): lowercased
shortcut stem, then `" "` and the lowercased target stem when a target
resolved. -/
def combinedName (stem : String) (target : Option String) : String :=
  match target with
  | some t => lowerString stem ++ " " ++ lowerString t
  | none => lowerString stem

/-- `_classify_shortcut` (lines 348-391). -/
def classifyShortcut (cats : List CategoryRule) (stem : String) (target : Option String) :
    String :=
  let sname := lowerString stem
  let combined := combinedName stem target
  match bestLoop (shortcutScore combined sname) cats none 0 with
  | (some c, s) => if c ≠ "" ∧ 0 < s then c else "Other"
  | (none, _) => "Other"

/-- `_classify_file` (lines 282-346). -/
def classifyFile (cats : List CategoryRule) (fd : FileDesc) : String :=
  let ext := lowerString fd.ext
  let stem := lowerString fd.stem
  if ext == ".lnk" then classifyShortcut cats fd.stem fd.target
  else
    match extPhase cats ext stem with
    | some c => c
    | none => keywordPhase cats stem fd.mimeMain

/-- An immediate child of a folder as `_classify_folder` sees it: a file
(with everything `_classify_file` needs) or a sub-folder, which the
content-analysis loop skips (`item.is_file()` is false). -/
inductive Child where
  | file (fd : FileDesc)
  | dir (name : String)
  deriving DecidableEq, Repr

/-- The file payload of a child, `none` for a sub-folder. -/
def Child.asFile : Child → Option FileDesc
  | .file fd => some fd
  | .dir _ => none

/-- Whether a child is a file (`item.is_file()`). -/
def Child.isFile : Child → Bool
  | .file _ => true
  | .dir _ => false

/-- Folder-name keyword matching of `_classify_folder` (lines 397-402):
first category one of whose keywords occurs in the lowercased folder
name. -/
def folderNameMatch : List CategoryRule → String → Option String
  | [], _ => none
  | r :: rest, fname =>
    if r.keywords.any (fun k => pyIn k fname) then some r.name
    else folderNameMatch rest fname

/-- One update of the `file_types` tally:
`file_types[c] = file_types.get(c, 0) + 1` (insertion order preserved). -/
def tallyAdd : List (String × Nat) → String → List (String × Nat)
  | [], c => [(c, 1)]
  | (k, v) :: rest, c =>
    if k = c then (k, v + 1) :: rest else (k, v) :: tallyAdd rest c

/-- The tally of a list of labels, in first-occurrence order. -/
def tallyList (l : List String) : List (String × Nat) :=
  l.foldl tallyAdd []

/-- Count held by the first entry of a tally whose key is `c` (`0` when
absent); proof-side accessor for the `file_types` dictionary. -/
def tcount : List (String × Nat) → String → Nat
  | [], _ => 0
  | (k, v) :: rest, c => if k = c then v else tcount rest c

/-- Python's `max(file_types.items(), key=lambda x: x[1])`: the first entry
attaining the maximal count. -/
def maxEntry : List (String × Nat) → Option (String × Nat)
  | [] => none
  | e :: rest =>
    match maxEntry rest with
    | none => some e
    | some e2 => if e.2 < e2.2 then some e2 else some e

/-- `_classify_folder` (lines 393-427). `children = none` models an
unreadable folder (`PermissionError`/`OSError` during iteration, caught at
line 422). The threshold `most_common[1] / total_files > 0.6` is a binary
float comparison in the source; for every file count below `2 ^ 53` it
coincides with the exact rational comparison `5 * count > 3 * total`
embedded here (no fraction with so small a denominator falls in the
half-ulp window around `0.6`, and `3 / 5` itself rounds to the double
`0.6`, making the strict comparison false). -/
def classifyFolder (cats : List CategoryRule) (name : String)
    (children : Option (List Child)) : String :=
  let fname := lowerString name
  match folderNameMatch cats fname with
  | some c => c
  | none =>
    match children with
    | none => "Folders"
    | some cs =>
      let files := cs.filterMap Child.asFile
      let total := files.length
      if 0 < total then
        match maxEntry (tallyList (files.map (classifyFile cats))) with
        | some e => if 3 * total < 5 * e.2 then e.1 else "Folders"
        | none => "Folders"
      else "Folders"

/-- A desktop item as `classify_item` sees it. -/
inductive Item where
  | file (fd : FileDesc)
  | folder (name : String) (children : Option (List Child))
  deriving DecidableEq, Repr

/-- `classify_item` (lines 270-280): folders get `_classify_folder` plus
the same-name guard (`item_path.name == category`, an exact string
comparison), files get `_classify_file`. -/
def classifyItem (cats : List CategoryRule) : Item → String
  | .file fd => classifyFile cats fd
  | .folder name children =>
    let c := classifyFolder cats name children
    if name == c then "Folders" else c

/-! ## Grid layout (`calculate_grid_position`, lines 429-465) -/

/-- The effective grid configuration read inside `calculate_grid_position`
(lines 431-440): each field is the nested `config["grid_layout"]` value
after its `.get(...)` default.  All quantities are Python integers; the
configuration guarantees them non-negative (spec §4.2), so they are
modelled as `Nat` (Python's `//`/`%` agree with `Nat` division on
non-negative operands). -/
structure GridConfig where
  gridWidth : Nat
  gridHeight : Nat
  startX : Nat
  startY : Nat
  maxColumns : Nat
  categorySpacingX : Nat
  categorySpacingY : Nat
  categoryOrder : List String
  deriving DecidableEq, Repr

/-- `category_order.index(category)` wrapped in `try/except` (lines
443-446): the position of the first occurrence, or the length of the
order list when the category is absent. -/
def categoryIndex : List String → String → Nat
  | [], _ => 0
  | x :: rest, c => if x = c then 0 else categoryIndex rest c + 1

/-- `calculate_grid_position` (lines 429-465): categories are laid out in
rows of 3 (`categories_per_row = 3`), items wrap inside a category at
`maxColumns`. -/
def calculateGridPosition (g : GridConfig) (category : String) (i : Nat) : Nat × Nat :=
  let ci := categoryIndex g.categoryOrder category
  let categoryRow := ci / 3
  let categoryCol := ci % 3
  let baseX := g.startX + categoryCol * g.categorySpacingX
  let baseY := g.startY + categoryRow * g.categorySpacingY
  let itemRow := i / g.maxColumns
  let itemCol := i % g.maxColumns
  (baseX + itemCol * g.gridWidth, baseY + itemRow * g.gridHeight)

/-! ## Configuration loading (`_load_config`, lines 139-198) -/

/-- The `grid_layout` document as found in a configuration file; every
field optional.  The two-level nesting (`grid_size.width`,
`start_position.x`, `category_spacing.x`) is flattened: an absent inner
key and an absent inner dictionary both read as `none`, exactly the cases
in which the corresponding `.get` chain of `calculate_grid_position`
yields its default. -/
structure GridLayoutDoc where
  enabled : Option Bool := none
  gridSizeWidth : Option Nat := none
  gridSizeHeight : Option Nat := none
  startPositionX : Option Nat := none
  startPositionY : Option Nat := none
  maxColumns : Option Nat := none
  categorySpacingX : Option Nat := none
  categorySpacingY : Option Nat := none
  categoryOrder : Option (List String) := none
  deriving DecidableEq, Repr

/-- A parsed configuration document; every top-level key optional.  Only
the keys the organizer reads are modelled. -/
structure ConfigDoc where
  categories : Option (List CategoryRule) := none
  ignoreFiles : Option (List String) := none
  dryRun : Option Bool := none
  createBackup : Option Bool := none
  askConfirmation : Option Bool := none
  gridLayout : Option GridLayoutDoc := none
  deriving DecidableEq, Repr

/-- The configuration after `_load_config`: the five keys of
`default_config` are always present; `grid_layout` is kept only when the
document supplied it (`default_config` has no `grid_layout` key, its
defaults live in the `.get` chain of `calculate_grid_position`). -/
structure AppConfig where
  categories : List CategoryRule
  ignoreFiles : List String
  dryRun : Bool
  createBackup : Bool
  askConfirmation : Bool
  gridLayout : Option GridLayoutDoc
  deriving DecidableEq, Repr

/-- The built-in `default_config` (lines 141-184). -/
def defaultConfig : AppConfig :=
  { categories := defaultCategories
    ignoreFiles := [".DS_Store", "Thumbs.db", "desktop.ini"]
    dryRun := true
    createBackup := true
    askConfirmation := true
    gridLayout := none }

/-- The merge loop of `_load_config` (lines 190-193): every key of
`default_config` missing from the document is filled from the defaults;
keys present in the document are kept as parsed. -/
def mergeConfig (p : ConfigDoc) : AppConfig :=
  { categories := p.categories.getD defaultConfig.categories
    ignoreFiles := p.ignoreFiles.getD defaultConfig.ignoreFiles
    dryRun := p.dryRun.getD defaultConfig.dryRun
    createBackup := p.createBackup.getD defaultConfig.createBackup
    askConfirmation := p.askConfirmation.getD defaultConfig.askConfirmation
    gridLayout := p.gridLayout }

/-- The ways reading and parsing `config.json` can go inside
`_load_config` (lines 186-196):
* `absent` — `os.path.exists(self.config_path)` is false (line 186);
* `ioError` — opening or reading raises `IOError`, caught at line 195;
* `jsonError` — `json.load` raises `json.JSONDecodeError`, caught at
  line 195;
* `decodeError` — the file's bytes do not decode, so the read inside
  `json.load` raises `UnicodeDecodeError`, a `ValueError` that the
  `except (json.JSONDecodeError, IOError)` clause at line 195 does NOT
  catch;
* `parsedNonDict` — the file holds valid JSON that is not an object
  (a list, string, number, …); `json.load` succeeds and the merge loop
  then raises an uncaught `TypeError` at `config[key] = value`
  (lines 191-193);
* `parsed p` — the file holds a JSON object, parsed into `p`. -/
inductive ConfigSource where
  | absent
  | ioError
  | jsonError
  | decodeError
  | parsedNonDict
  | parsed (p : ConfigDoc)
  deriving DecidableEq, Repr

/-- Outcome of `_load_config`: a configuration, or an uncaught Python
exception (named by its class) that propagates and aborts the run. -/
inductive LoadResult where
  | ok (cfg : AppConfig)
  | raises (exc : String)
  deriving DecidableEq, Repr

/-- `_load_config` (lines 139-198): the built-in defaults when the file is
absent or raises one of the two caught exception types,
merge-with-defaults for a parsed JSON object, and an uncaught exception —
the run fails — for an undecodable file or a valid-JSON non-object
document. -/
def loadConfig : ConfigSource → LoadResult
  | .absent => .ok defaultConfig
  | .ioError => .ok defaultConfig
  | .jsonError => .ok defaultConfig
  | .decodeError => .raises "UnicodeDecodeError"
  | .parsedNonDict => .raises "TypeError"
  | .parsed p => .ok (mergeConfig p)

/-- The grid configuration `calculate_grid_position` effectively works
with, per the `.get` defaults of lines 431-440. -/
def effectiveGrid (cfg : AppConfig) : GridConfig :=
  match cfg.gridLayout with
  | none => ⟨100, 100, 50, 50, 8, 200, 150, []⟩
  | some g =>
    ⟨g.gridSizeWidth.getD 100, g.gridSizeHeight.getD 100,
     g.startPositionX.getD 50, g.startPositionY.getD 50,
     g.maxColumns.getD 8,
     g.categorySpacingX.getD 200, g.categorySpacingY.getD 150,
     g.categoryOrder.getD []⟩

/-! ## Spec-side shortcut classifier (for the refinement claim C6) -/

/-- The shortcut classifier as the specification words it (spec §4.1
steps 2 and 4): weighted keyword scoring of step 4 — including its
whole-word-boundary `0.5` bonus — run against the combined lowercase
text.  Written from the spec, to be compared with `classifyShortcut`
(which the source builds around a different bonus test). -/
def classifyShortcutAsSpecified (cats : List CategoryRule) (stem : String)
    (target : Option String) : String :=
  let combined := combinedName stem target
  match bestLoop (fileScore combined) cats none 0 with
  | (some c, s) => if c ≠ "" ∧ 0 < s then c else "Other"
  | (none, _) => "Other"

/-! ## Lemmas about the best-match loop -/

/-- When no category beats the running best score, the loop keeps the
running pair. -/
theorem bestLoop_of_all_le (f : CategoryRule → Nat) (cats : List CategoryRule) :
    ∀ (b : Option String) (s : Nat), (∀ r ∈ cats, f r ≤ s) → bestLoop f cats b s = (b, s) := by
  induction cats with
  | nil => intro b s _; rfl
  | cons r rest ih =>
    intro b s h
    have hr : ¬ s < f r := Nat.not_lt.mpr (h r (List.mem_cons_self r rest))
    simp only [bestLoop, if_neg hr]
    exact ih b s fun r' hr' => h r' (List.mem_cons_of_mem _ hr')

/-- Characterization of the best-match loop: either nothing beats the
running score, or the result is the first category attaining the maximal
score (strictly above every earlier score, at least every later one). -/
theorem bestLoop_spec (f : CategoryRule → Nat) (cats : List CategoryRule) :
    ∀ (b : Option String) (s : Nat),
      (bestLoop f cats b s = (b, s) ∧ ∀ r ∈ cats, f r ≤ s) ∨
      (∃ pre r post, cats = pre ++ r :: post ∧ s < f r ∧
        (∀ r' ∈ pre, f r' < f r) ∧ (∀ r' ∈ post, f r' ≤ f r) ∧
        bestLoop f cats b s = (some r.name, f r)) := by
  induction cats with
  | nil => intro b s; exact Or.inl ⟨rfl, by simp⟩
  | cons r0 rest ih =>
    intro b s
    by_cases hlt : s < f r0
    · rcases ih (some r0.name) (f r0) with ⟨heq, hall⟩ | ⟨pre, r, post, hsplit, hgt, hpre, hpost, heq⟩
      · refine Or.inr ⟨[], r0, rest, rfl, hlt, by simp, hall, ?_⟩
        simp only [bestLoop, if_pos hlt]; exact heq
      · refine Or.inr ⟨r0 :: pre, r, post, by rw [hsplit]; rfl, Nat.lt_trans hlt hgt, ?_, hpost, ?_⟩
        · intro r' hr'
          rcases List.mem_cons.mp hr' with h | h
          · subst h; exact hgt
          · exact hpre r' h
        · simp only [bestLoop, if_pos hlt]; exact heq
    · rcases ih b s with ⟨heq, hall⟩ | ⟨pre, r, post, hsplit, hgt, hpre, hpost, heq⟩
      · refine Or.inl ⟨?_, ?_⟩
        · simp only [bestLoop, if_neg hlt]; exact heq
        · intro r' hr'
          rcases List.mem_cons.mp hr' with h | h
          · subst h; exact Nat.not_lt.mp hlt
          · exact hall r' h
      · refine Or.inr ⟨r0 :: pre, r, post, by rw [hsplit]; rfl, hgt, ?_, hpost, ?_⟩
        · intro r' hr'
          rcases List.mem_cons.mp hr' with h | h
          · subst h; exact Nat.lt_of_le_of_lt (Nat.not_lt.mp hlt) hgt
          · exact hpre r' h
        · simp only [bestLoop, if_neg hlt]; exact heq

/-- A best match reported by the loop is the running best or the name of
some category of the list. -/
theorem bestLoop_fst_mem (f : CategoryRule → Nat) (cats : List CategoryRule) :
    ∀ (b : Option String) (s : Nat) (c : String),
      (bestLoop f cats b s).1 = some c → b = some c ∨ ∃ r ∈ cats, r.name = c := by
  induction cats with
  | nil => intro b s c h; exact Or.inl h
  | cons r0 rest ih =>
    intro b s c h
    by_cases hlt : s < f r0
    · simp only [bestLoop, if_pos hlt] at h
      rcases ih _ _ _ h with h' | ⟨r, hr, hn⟩
      · exact Or.inr ⟨r0, List.mem_cons_self r0 rest, Option.some.inj h'⟩
      · exact Or.inr ⟨r, List.mem_cons_of_mem _ hr, hn⟩
    · simp only [bestLoop, if_neg hlt] at h
      rcases ih _ _ _ h with h' | ⟨r, hr, hn⟩
      · exact Or.inl h'
      · exact Or.inr ⟨r, List.mem_cons_of_mem _ hr, hn⟩

/-! ## Lemmas about the extension phase -/

/-- Any winner of the extension phase is a category of the table whose
extension list contains the extension; for `.exe`/`.msi` it additionally
has a keyword inside the stem. -/
theorem extPhase_some (ext stem : String) (cats : List CategoryRule) (c : String)
    (h : extPhase cats ext stem = some c) :
    ∃ r ∈ cats, r.name = c ∧ ext ∈ r.extensions ∧
      (ext = ".exe" ∨ ext = ".msi" → ∃ k ∈ r.keywords, pyIn k stem = true) := by
  induction cats with
  | nil => simp [extPhase] at h
  | cons r0 rest ih =>
    by_cases hc : ext ∈ r0.extensions
    · by_cases hx : ext = ".exe" ∨ ext = ".msi"
      · by_cases hk : ∃ k ∈ r0.keywords, pyIn k stem = true
        · have hcc : r0.name = c := by simpa [extPhase, hc, hx, hk] using h
          exact ⟨r0, List.mem_cons_self r0 rest, hcc, hc, fun _ => hk⟩
        · have h' : extPhase rest ext stem = some c := by
            simpa [extPhase, hc, hx, hk] using h
          obtain ⟨r, hr, hn, hce, hkk⟩ := ih h'
          exact ⟨r, List.mem_cons_of_mem _ hr, hn, hce, hkk⟩
      · have hcc : r0.name = c := by simpa [extPhase, hc, hx] using h
        exact ⟨r0, List.mem_cons_self r0 rest, hcc, hc, fun hxx => absurd hxx hx⟩
    · have h' : extPhase rest ext stem = some c := by simpa [extPhase, hc] using h
      obtain ⟨r, hr, hn, hce, hkk⟩ := ih h'
      exact ⟨r, List.mem_cons_of_mem _ hr, hn, hce, hkk⟩

/-- For an extension other than `.exe`/`.msi`, the extension phase returns
the first table entry whose extension list contains it, whatever the
stem. -/
theorem extPhase_first (ext stem : String) (hexe : ext ≠ ".exe") (hmsi : ext ≠ ".msi")
    (pre : List CategoryRule) (r : CategoryRule) (post : List CategoryRule)
    (hpre : ∀ r' ∈ pre, ext ∉ r'.extensions) (hr : ext ∈ r.extensions) :
    extPhase (pre ++ r :: post) ext stem = some r.name := by
  induction pre with
  | nil => simp [extPhase, hr, hexe, hmsi]
  | cons p0 pre' ih =>
    have hp0 : ext ∉ p0.extensions := hpre p0 (List.mem_cons_self p0 pre')
    simp only [List.cons_append, extPhase, hp0]
    simpa [hp0] using ih fun r' hr' => hpre r' (List.mem_cons_of_mem _ hr')

/-- When every table entry listing an `.exe`/`.msi` extension has no
keyword inside the stem, the extension phase yields nothing. -/
theorem extPhase_none_of_no_keyword (ext stem : String) (cats : List CategoryRule)
    (hx : ext = ".exe" ∨ ext = ".msi")
    (h : ∀ r ∈ cats, ext ∈ r.extensions → ∀ k ∈ r.keywords, pyIn k stem = false) :
    extPhase cats ext stem = none := by
  induction cats with
  | nil => rfl
  | cons r0 rest ih =>
    by_cases hc : ext ∈ r0.extensions
    · have hk : ¬ ∃ k ∈ r0.keywords, pyIn k stem = true := by
        rintro ⟨k, hk1, hk2⟩
        have := h r0 (List.mem_cons_self r0 rest) hc k hk1
        rw [this] at hk2
        exact Bool.false_ne_true hk2
      have h' := ih fun r hr => h r (List.mem_cons_of_mem _ hr)
      simpa [extPhase, hc, hx, hk] using h'
    · have h' := ih fun r hr => h r (List.mem_cons_of_mem _ hr)
      simpa [extPhase, hc] using h'

/-! ## Lemmas about folder-name matching, the tally and its maximum -/

/-- A folder-name keyword match names a category of the table. -/
theorem folderNameMatch_some (cats : List CategoryRule) (fname c : String)
    (h : folderNameMatch cats fname = some c) : ∃ r ∈ cats, r.name = c := by
  induction cats with
  | nil => simp [folderNameMatch] at h
  | cons r0 rest ih =>
    by_cases hk : ∃ k ∈ r0.keywords, pyIn k fname = true
    · have : r0.name = c := by simpa [folderNameMatch, hk] using h
      exact ⟨r0, List.mem_cons_self r0 rest, this⟩
    · have h' : folderNameMatch rest fname = some c := by
        simpa [folderNameMatch, hk] using h
      obtain ⟨r, hr, hn⟩ := ih h'
      exact ⟨r, List.mem_cons_of_mem _ hr, hn⟩

/-- A tally update raises the updated key's count by one and leaves every
other count alone. -/
theorem tcount_tallyAdd (c c' : String) : ∀ m : List (String × Nat),
    tcount (tallyAdd m c) c' = tcount m c' + (if c = c' then 1 else 0)
  | [] => by
    by_cases h : c = c' <;> simp [tallyAdd, tcount, h]
  | (k, v) :: rest => by
    by_cases h1 : k = c
    · subst h1
      by_cases h2 : k = c' <;> simp [tallyAdd, tcount, h2]
    · by_cases h2 : k = c'
      · have h3 : ¬ c = c' := fun hh => h1 (h2.trans hh.symm)
        have h4 : ¬ c' = c := fun hh => h3 hh.symm
        simp [tallyAdd, tcount, h1, h2, h3, h4]
      · simp [tallyAdd, tcount, h1, h2, tcount_tallyAdd c c' rest]

/-- Folding the tally over a label list counts occurrences. -/
theorem tcount_foldl (c : String) : ∀ (l : List String) (m : List (String × Nat)),
    tcount (l.foldl tallyAdd m) c = tcount m c + l.count c
  | [], m => by simp
  | a :: l, m => by
    have ih := tcount_foldl c l (tallyAdd m a)
    simp only [List.foldl_cons] at ih ⊢
    rw [ih, tcount_tallyAdd]
    by_cases h : a = c
    · simp [List.count_cons, h, beq_iff_eq]
      omega
    · simp [List.count_cons, h, beq_iff_eq]

/-- The tally of a label list counts occurrences. -/
theorem tcount_tallyList (c : String) (l : List String) :
    tcount (tallyList l) c = l.count c := by
  simpa [tallyList, tcount] using tcount_foldl c l []

/-- Keys of an updated tally are old keys or the updated key. -/
theorem tallyAdd_key_mem (c : String) : ∀ (m : List (String × Nat)) (e : String × Nat),
    e ∈ tallyAdd m c → e.1 = c ∨ e.1 ∈ m.map Prod.fst
  | [], e => by
    intro he
    simp only [tallyAdd, List.mem_singleton] at he
    subst he
    exact Or.inl rfl
  | (k, v) :: rest, e => by
    by_cases h1 : k = c
    · simp only [tallyAdd, if_pos h1, List.mem_cons]
      rintro (rfl | he)
      · right; simp
      · right; simp only [List.map_cons, List.mem_cons]
        exact Or.inr (List.mem_map_of_mem _ he)
    · simp only [tallyAdd, if_neg h1, List.mem_cons]
      rintro (rfl | he)
      · right; simp
      · rcases tallyAdd_key_mem c rest e he with h | h
        · exact Or.inl h
        · right; simp only [List.map_cons, List.mem_cons]; exact Or.inr h

/-- A tally update keeps the keys pairwise distinct. -/
theorem tallyAdd_nodup (c : String) : ∀ m : List (String × Nat),
    (m.map Prod.fst).Nodup → ((tallyAdd m c).map Prod.fst).Nodup
  | [], _ => by simp [tallyAdd]
  | (k, v) :: rest, h => by
    rw [List.map_cons, List.nodup_cons] at h
    by_cases h1 : k = c
    · simpa [tallyAdd, h1] using h
    · rw [tallyAdd, if_neg h1, List.map_cons, List.nodup_cons]
      refine ⟨?_, tallyAdd_nodup c rest h.2⟩
      intro hk
      obtain ⟨e, he, hek⟩ := List.mem_map.mp hk
      rcases tallyAdd_key_mem c rest e he with h2 | h2
      · exact h1 (hek ▸ h2.symm).symm
      · exact h.1 (hek ▸ h2)

/-- Tallies have pairwise distinct keys. -/
theorem tallyList_nodup (l : List String) : ((tallyList l).map Prod.fst).Nodup := by
  suffices h : ∀ (l : List String) (m : List (String × Nat)),
      (m.map Prod.fst).Nodup → ((l.foldl tallyAdd m).map Prod.fst).Nodup by
    exact h l [] (by simp)
  intro l
  induction l with
  | nil => intro m hm; simpa using hm
  | cons a l ih => intro m hm; exact ih _ (tallyAdd_nodup a m hm)

/-- A tally update keeps every count positive. -/
theorem tallyAdd_pos (c : String) : ∀ m : List (String × Nat),
    (∀ e ∈ m, 0 < e.2) → ∀ e ∈ tallyAdd m c, 0 < e.2
  | [], _ => by simp [tallyAdd]
  | (k, v) :: rest, h => by
    by_cases h1 : k = c
    · simp only [tallyAdd, if_pos h1]
      intro e he
      rcases List.mem_cons.mp he with rfl | he
      · simp
      · exact h e (List.mem_cons_of_mem _ he)
    · simp only [tallyAdd, if_neg h1]
      intro e he
      rcases List.mem_cons.mp he with rfl | he
      · exact h (k, v) (List.mem_cons_self _ _)
      · exact tallyAdd_pos c rest (fun e' he' => h e' (List.mem_cons_of_mem _ he')) e he

/-- Every count in a tally is positive. -/
theorem tallyList_pos (l : List String) : ∀ e ∈ tallyList l, 0 < e.2 := by
  suffices h : ∀ (l : List String) (m : List (String × Nat)),
      (∀ e ∈ m, 0 < e.2) → ∀ e ∈ l.foldl tallyAdd m, 0 < e.2 by
    exact h l [] (by simp)
  intro l
  induction l with
  | nil => intro m hm; simpa using hm
  | cons a l ih => intro m hm; exact ih _ (tallyAdd_pos a m hm)

/-- With distinct keys, an entry's count is what `tcount` reads. -/
theorem tcount_of_mem : ∀ (m : List (String × Nat)), (m.map Prod.fst).Nodup →
    ∀ e ∈ m, tcount m e.1 = e.2
  | [], _, e => by simp
  | (k, v) :: rest, h, e => by
    rw [List.map_cons, List.nodup_cons] at h
    intro he
    rcases List.mem_cons.mp he with rfl | he
    · simp [tcount]
    · have hk : k ≠ e.1 := by
        intro hke
        apply h.1
        rw [hke]
        exact List.mem_map.mpr ⟨e, he, rfl⟩
      simp only [tcount, if_neg hk]
      exact tcount_of_mem rest h.2 e he

/-- A key with a positive `tcount` appears in the tally with that count. -/
theorem tcount_mem (c : String) : ∀ m : List (String × Nat),
    tcount m c ≠ 0 → (c, tcount m c) ∈ m
  | [], h => absurd rfl h
  | (k, v) :: rest, h => by
    by_cases h1 : k = c
    · subst h1
      simp only [tcount, if_pos rfl] at h ⊢
      exact List.mem_cons_self _ _
    · simp only [tcount, if_neg h1] at h ⊢
      exact List.mem_cons_of_mem _ (tcount_mem c rest h)

/-- `maxEntry` yields `none` only on the empty list. -/
theorem maxEntry_eq_none : ∀ l : List (String × Nat), maxEntry l = none → l = []
  | [], _ => rfl
  | a :: rest, h => by
    rcases hm : maxEntry rest with _ | e2
    · simp only [maxEntry, hm] at h
      exact Option.noConfusion h
    · simp only [maxEntry, hm] at h
      by_cases hlt : a.2 < e2.2
      · rw [if_pos hlt] at h; exact Option.noConfusion h
      · rw [if_neg hlt] at h; exact Option.noConfusion h

/-- `maxEntry` returns a member whose count bounds every count. -/
theorem maxEntry_spec : ∀ (l : List (String × Nat)) (e : String × Nat),
    maxEntry l = some e → e ∈ l ∧ ∀ e' ∈ l, e'.2 ≤ e.2
  | [], e => by simp [maxEntry]
  | a :: rest, e => by
    intro h
    rcases hm : maxEntry rest with _ | e2
    · simp only [maxEntry, hm] at h
      obtain rfl : a = e := Option.some.inj h
      have hrest : rest = [] := maxEntry_eq_none rest hm
      subst hrest
      exact ⟨List.mem_cons_self _ _, by simp⟩
    · obtain ⟨hmem, hbound⟩ := maxEntry_spec rest e2 hm
      simp only [maxEntry, hm] at h
      by_cases hlt : a.2 < e2.2
      · rw [if_pos hlt] at h
        obtain rfl : e2 = e := Option.some.inj h
        refine ⟨List.mem_cons_of_mem _ hmem, ?_⟩
        intro e' he'
        rcases List.mem_cons.mp he' with rfl | he'
        · exact Nat.le_of_lt hlt
        · exact hbound e' he'
      · rw [if_neg hlt] at h
        obtain rfl : a = e := Option.some.inj h
        refine ⟨List.mem_cons_self _ _, ?_⟩
        intro e' he'
        rcases List.mem_cons.mp he' with rfl | he'
        · exact Nat.le_refl _
        · exact Nat.le_trans (hbound e' he') (Nat.not_lt.mp hlt)

/-- `maxEntry` of a non-empty tally exists. -/
theorem maxEntry_isSome (l : List (String × Nat)) (h : l ≠ []) :
    ∃ e, maxEntry l = some e := by
  cases l with
  | nil => exact absurd rfl h
  | cons a rest =>
    rcases hm : maxEntry rest with _ | e2
    · exact ⟨a, by simp only [maxEntry, hm]⟩
    · by_cases hlt : a.2 < e2.2
      · exact ⟨e2, by simp only [maxEntry, hm]; exact if_pos hlt⟩
      · exact ⟨a, by simp only [maxEntry, hm]; exact if_neg hlt⟩

/-- Occurrences of two different values never exceed the length. -/
theorem count_pair_le (c c' : String) (hne : c ≠ c') : ∀ l : List String,
    l.count c + l.count c' ≤ l.length
  | [] => by simp
  | a :: l => by
    have ih := count_pair_le c c' hne l
    rw [List.length_cons, List.count_cons, List.count_cons]
    by_cases h1 : a = c
    · have h2 : a ≠ c' := fun hh => hne (h1.symm.trans hh)
      rw [if_pos (beq_iff_eq.mpr h1), if_neg (by simpa using h2)]
      omega
    · rw [if_neg (by simpa using h1)]
      by_cases h2 : a = c'
      · rw [if_pos (beq_iff_eq.mpr h2)]
        omega
      · rw [if_neg (by simpa using h2)]
        omega

/-! ## Case analysis of the classifier results -/

/-- The MIME fallback yields one of its three literals. -/
theorem mimeFallback_cases (m : Option String) :
    mimeFallback m = "Media Tools" ∨ mimeFallback m = "Coding Tools" ∨
      mimeFallback m = "Other" := by
  rcases m with _ | s
  · exact Or.inr (Or.inr rfl)
  · by_cases h1 : s = "image"
    · simp [mimeFallback, h1]
    · by_cases h2 : s = "video"
      · simp [mimeFallback, h1, h2]
      · by_cases h3 : s = "audio"
        · simp [mimeFallback, h1, h2, h3]
        · by_cases h4 : s = "text"
          · simp [mimeFallback, h1, h2, h3, h4]
          · simp [mimeFallback, h1, h2, h3, h4]

/-- A shortcut classifies as a category of the table or as `"Other"`. -/
theorem classifyShortcut_cases (cats : List CategoryRule) (stem : String)
    (target : Option String) :
    (∃ r ∈ cats, r.name = classifyShortcut cats stem target) ∨
      classifyShortcut cats stem target = "Other" := by
  rcases hb : bestLoop (shortcutScore (combinedName stem target) (lowerString stem))
      cats none 0 with ⟨ob, s⟩
  rcases ob with _ | c
  · right
    simp only [classifyShortcut, hb]
  · by_cases hc : c ≠ "" ∧ 0 < s
    · left
      rcases bestLoop_fst_mem _ cats none 0 c (by rw [hb]) with h | ⟨r, hr, hn⟩
      · exact absurd h (by simp)
      · refine ⟨r, hr, ?_⟩
        simp only [classifyShortcut, hb]
        rw [if_pos hc]
        exact hn
    · right
      simp only [classifyShortcut, hb]
      rw [if_neg hc]

/-- The keyword-scoring phase yields a category of the table or a MIME /
default literal. -/
theorem keywordPhase_cases (cats : List CategoryRule) (stem : String) (mime : Option String) :
    (∃ r ∈ cats, r.name = keywordPhase cats stem mime) ∨
      keywordPhase cats stem mime = "Media Tools" ∨
      keywordPhase cats stem mime = "Coding Tools" ∨
      keywordPhase cats stem mime = "Other" := by
  rcases hb : bestLoop (fileScore stem) cats none 0 with ⟨ob, s⟩
  rcases ob with _ | c
  · have : keywordPhase cats stem mime = mimeFallback mime := by
      simp only [keywordPhase, hb]
    rw [this]
    exact Or.inr (mimeFallback_cases mime)
  · by_cases hc : c ≠ "" ∧ 0 < s
    · left
      rcases bestLoop_fst_mem _ cats none 0 c (by rw [hb]) with h | ⟨r, hr, hn⟩
      · exact absurd h (by simp)
      · refine ⟨r, hr, ?_⟩
        simp only [keywordPhase, hb]
        rw [if_pos hc]
        exact hn
    · have : keywordPhase cats stem mime = mimeFallback mime := by
        simp only [keywordPhase, hb]
        rw [if_neg hc]
      rw [this]
      exact Or.inr (mimeFallback_cases mime)

/-- A file classifies as a category of the table or as one of the three
fallback literals; in particular never as `"Folders"` under a table that
does not use that name. -/
theorem classifyFile_cases (cats : List CategoryRule) (fd : FileDesc) :
    (∃ r ∈ cats, r.name = classifyFile cats fd) ∨
      classifyFile cats fd = "Media Tools" ∨
      classifyFile cats fd = "Coding Tools" ∨
      classifyFile cats fd = "Other" := by
  unfold classifyFile
  by_cases hl : lowerString fd.ext = ".lnk"
  · rw [if_pos (by simp [hl])]
    rcases classifyShortcut_cases cats fd.stem fd.target with h | h
    · exact Or.inl h
    · exact Or.inr (Or.inr (Or.inr h))
  · rw [if_neg (by simp [hl])]
    rcases he : extPhase cats (lowerString fd.ext) (lowerString fd.stem) with _ | c
    · exact keywordPhase_cases cats (lowerString fd.stem) fd.mimeMain
    · obtain ⟨r, hr, hn, -, -⟩ := extPhase_some _ _ _ _ he
      exact Or.inl ⟨r, hr, hn⟩

/-- A folder classifies as a category of the table, as the file
classification of one of its file children, or as `"Folders"`. -/
theorem classifyFolder_cases (cats : List CategoryRule) (name : String)
    (children : Option (List Child)) :
    (∃ r ∈ cats, r.name = classifyFolder cats name children) ∨
      (∃ fd, classifyFolder cats name children = classifyFile cats fd) ∨
      classifyFolder cats name children = "Folders" := by
  rcases hf : folderNameMatch cats (lowerString name) with _ | c
  · rcases children with _ | cs
    · right; right
      simp only [classifyFolder, hf]
    · by_cases htot : 0 < (cs.filterMap Child.asFile).length
      · rcases hm : maxEntry
            (tallyList ((cs.filterMap Child.asFile).map (classifyFile cats))) with _ | e
        · right; right
          simp only [classifyFolder, hf, hm]
          rw [if_pos htot]
        · by_cases hthr : 3 * (cs.filterMap Child.asFile).length < 5 * e.2
          · have hres : classifyFolder cats name (some cs) = e.1 := by
              simp only [classifyFolder, hf, hm]
              rw [if_pos htot, if_pos hthr]
            obtain ⟨hmem, -⟩ := maxEntry_spec _ _ hm
            have hpos : 0 < e.2 := tallyList_pos _ e hmem
            have hcount :
                ((cs.filterMap Child.asFile).map (classifyFile cats)).count e.1 = e.2 := by
              rw [← tcount_tallyList]
              exact tcount_of_mem _ (tallyList_nodup _) e hmem
            have hlabel : e.1 ∈ (cs.filterMap Child.asFile).map (classifyFile cats) := by
              rw [← List.count_pos_iff, hcount]; exact hpos
            obtain ⟨fd, -, hfd⟩ := List.mem_map.mp hlabel
            exact Or.inr (Or.inl ⟨fd, hres.trans hfd.symm⟩)
          · right; right
            simp only [classifyFolder, hf, hm]
            rw [if_pos htot, if_neg hthr]
      · right; right
        simp only [classifyFolder, hf]
        rw [if_neg htot]
  · left
    have hres : classifyFolder cats name children = c := by
      simp only [classifyFolder, hf]
    rw [hres]
    exact folderNameMatch_some cats _ c hf

/-- Any item classifies as a category of the table or as one of the four
built-in literals. -/
theorem classifyItem_cases (cats : List CategoryRule) (it : Item) :
    (∃ r ∈ cats, r.name = classifyItem cats it) ∨
      classifyItem cats it = "Media Tools" ∨
      classifyItem cats it = "Coding Tools" ∨
      classifyItem cats it = "Other" ∨
      classifyItem cats it = "Folders" := by
  cases it with
  | file fd =>
    rcases classifyFile_cases cats fd with h | h | h | h
    · exact Or.inl h
    · exact Or.inr (Or.inl h)
    · exact Or.inr (Or.inr (Or.inl h))
    · exact Or.inr (Or.inr (Or.inr (Or.inl h)))
  | folder name children =>
    by_cases hg : name = classifyFolder cats name children
    · right; right; right; right
      simp only [classifyItem]
      rw [if_pos (by simpa using hg)]
    · have hres : classifyItem cats (Item.folder name children) =
          classifyFolder cats name children := by
        simp only [classifyItem]
        rw [if_neg (by simpa using hg)]
      rw [hres]
      rcases classifyFolder_cases cats name children with h | ⟨fd, hfd⟩ | h
      · exact Or.inl h
      · rw [hfd]
        rcases classifyFile_cases cats fd with h | h | h | h
        · exact Or.inl h
        · exact Or.inr (Or.inl h)
        · exact Or.inr (Or.inr (Or.inl h))
        · exact Or.inr (Or.inr (Or.inr (Or.inl h)))
      · exact Or.inr (Or.inr (Or.inr (Or.inr h)))

/-- Unfolding of the score fold shared by `fileScore` and
`shortcutScore`: twice the number of matching keywords plus one per
matching keyword that also earns the bonus. -/
theorem score_foldl (p q : String → Bool) : ∀ (l : List String) (a : Nat),
    l.foldl (fun acc k => if p k then acc + 2 + (if q k then 1 else 0) else acc) a =
      a + 2 * (l.filter p).length + (l.filter (fun k => p k && q k)).length
  | [], a => by simp
  | k :: l, a => by
    have ih := score_foldl p q l
    cases hp : p k with
    | false =>
      simp only [List.foldl_cons, List.filter_cons, hp, Bool.false_eq_true, if_false,
        Bool.false_and]
      exact ih a
    | true =>
      cases hq : q k with
      | false =>
        simp only [List.foldl_cons, List.filter_cons, hp, hq, if_true, Bool.false_eq_true,
          if_false, Bool.true_and]
        rw [ih]
        simp only [List.length_cons]
        omega
      | true =>
        simp only [List.foldl_cons, List.filter_cons, hp, hq, if_true, Bool.true_and]
        rw [ih]
        simp only [List.length_cons]
        omega

/-! ## The claims -/

/-- Claim C10: under the built-in default category table the file
classifier never produces the label `"Folders"` for a non-directory item:
every extension match and keyword winner is a key of the table, the MIME
fallback yields only `"Media Tools"` or `"Coding Tools"`, and the default
is `"Other"` — none of which is `"Folders"`. -/
theorem c10_file_never_folders (fd : FileDesc) :
    classifyFile defaultCategories fd ≠ "Folders" := by
  have hnames : ∀ r ∈ defaultCategories, r.name ≠ "Folders" := by decide
  rcases classifyFile_cases defaultCategories fd with ⟨r, hr, hn⟩ | h | h | h
  · rw [← hn]; exact hnames r hr
  · rw [h]; decide
  · rw [h]; decide
  · rw [h]; decide

/-- Witness for C10 at a concrete file. -/
theorem c10_witness :
    classifyFile defaultCategories ⟨"holiday", ".png", none, none⟩ ≠ "Folders" :=
  c10_file_never_folders ⟨"holiday", ".png", none, none⟩

/-- Claim C3: a non-shortcut file whose lowercased extension is neither
`.exe` nor `.msi` and appears in some category's extension list classifies
to the first category in table iteration order whose extension list
contains it, regardless of the file's stem, shortcut target or MIME
type. -/
theorem c3_extension_precedence (cats : List CategoryRule) (fd : FileDesc)
    (pre : List CategoryRule) (r : CategoryRule) (post : List CategoryRule)
    (hexe : lowerString fd.ext ≠ ".exe") (hmsi : lowerString fd.ext ≠ ".msi")
    (hlnk : lowerString fd.ext ≠ ".lnk")
    (hsplit : cats = pre ++ r :: post)
    (hpre : ∀ r' ∈ pre, lowerString fd.ext ∉ r'.extensions)
    (hr : lowerString fd.ext ∈ r.extensions) :
    classifyFile cats fd = r.name := by
  subst hsplit
  have he := extPhase_first (lowerString fd.ext) (lowerString fd.stem) hexe hmsi pre r post hpre hr
  simp only [classifyFile, he]
  rw [if_neg (by simpa using hlnk)]

/-- Witness for C3: `vacation.jpg` classifies `"Images"` although its stem
holds no image keyword. -/
theorem c3_witness :
    classifyFile defaultCategories ⟨"vacation", ".jpg", none, none⟩ = "Images" :=
  c3_extension_precedence defaultCategories ⟨"vacation", ".jpg", none, none⟩
    (defaultCategories.take 1)
    ⟨"Images", [".jpg", ".jpeg", ".png", ".gif", ".bmp", ".tiff", ".svg"],
      ["photo", "image", "picture", "screenshot"]⟩
    (defaultCategories.drop 2)
    (by decide) (by decide) (by decide) (by decide) (by decide) (by decide)

/-- Claim C4: for `.exe`/`.msi` files the extension phase only ever
returns a category one of whose keywords occurs in the lowercased stem;
when no extension-listing category has a matching keyword the whole
extension phase is skipped and classification falls through to the
keyword-scoring phase. -/
theorem c4_exe_gating (cats : List CategoryRule) (fd : FileDesc)
    (hx : lowerString fd.ext = ".exe" ∨ lowerString fd.ext = ".msi") :
    (∀ c, extPhase cats (lowerString fd.ext) (lowerString fd.stem) = some c →
      ∃ r ∈ cats, r.name = c ∧ lowerString fd.ext ∈ r.extensions ∧
        ∃ k ∈ r.keywords, pyIn k (lowerString fd.stem) = true) ∧
    ((∀ r ∈ cats, lowerString fd.ext ∈ r.extensions →
        ∀ k ∈ r.keywords, pyIn k (lowerString fd.stem) = false) →
      classifyFile cats fd = keywordPhase cats (lowerString fd.stem) fd.mimeMain) := by
  constructor
  · intro c hc
    obtain ⟨r, hr, hn, hce, hkk⟩ := extPhase_some _ _ _ _ hc
    exact ⟨r, hr, hn, hce, hkk hx⟩
  · intro h
    have hnone := extPhase_none_of_no_keyword _ _ cats hx h
    have hlnk : lowerString fd.ext ≠ ".lnk" := by
      rcases hx with h' | h' <;> rw [h'] <;> decide
    simp only [classifyFile, hnone]
    rw [if_neg (by simpa using hlnk)]

/-- Witness for C4: `random.exe` is not classified by extension alone and
falls through to keyword scoring (which yields `"Other"`). -/
theorem c4_witness :
    classifyFile defaultCategories ⟨"random", ".exe", none, none⟩ =
      keywordPhase defaultCategories (lowerString "random") none :=
  (c4_exe_gating defaultCategories ⟨"random", ".exe", none, none⟩
    (Or.inl (by decide))).2 (by decide)

/-- Claim C5: in the keyword-scoring phase every category's score (scaled
by 2 to keep the `0.5` steps in `Nat`) equals twice the number of its
keywords occurring in the subject text plus one per matched keyword that
also matches at a word boundary; whenever some category scores positive,
the loop returns the first category attaining the maximal score — earlier
equal scores win, later equal scores never overwrite the best. -/
theorem c5_keyword_scoring :
    (∀ (text : String) (r : CategoryRule),
      fileScore text r =
        2 * (r.keywords.filter (fun k => pyIn k text)).length +
          (r.keywords.filter (fun k => pyIn k text && wordBonus k text)).length) ∧
    (∀ (cats : List CategoryRule) (text : String),
      (∃ r ∈ cats, 0 < fileScore text r) →
      ∃ pre r post, cats = pre ++ r :: post ∧
        bestLoop (fileScore text) cats none 0 = (some r.name, fileScore text r) ∧
        0 < fileScore text r ∧
        (∀ r' ∈ pre, fileScore text r' < fileScore text r) ∧
        (∀ r' ∈ post, fileScore text r' ≤ fileScore text r)) := by
  constructor
  · intro text r
    simpa using score_foldl (fun k => pyIn k text) (fun k => wordBonus k text) r.keywords 0
  · intro cats text hex
    rcases bestLoop_spec (fileScore text) cats none 0 with
      ⟨-, hall⟩ | ⟨pre, r, post, hsplit, hgt, hpre, hpost, heq⟩
    · obtain ⟨r, hr, hpos⟩ := hex
      have := hall r hr
      omega
    · exact ⟨pre, r, post, hsplit, heq, hgt, hpre, hpost⟩

/-- Witness for C5: on the text `"report"` the scoring loop elects
`"Documents"` (first category, score `3` in the scaled units: one
substring match plus the verbatim whole-word bonus). -/
theorem c5_witness :
    ∃ pre r post, defaultCategories = pre ++ r :: post ∧
      bestLoop (fileScore "report") defaultCategories none 0 =
        (some r.name, fileScore "report" r) ∧
      0 < fileScore "report" r ∧
      (∀ r' ∈ pre, fileScore "report" r' < fileScore "report" r) ∧
      (∀ r' ∈ post, fileScore "report" r' ≤ fileScore "report" r) :=
  c5_keyword_scoring.2 defaultCategories "report"
    ⟨⟨"Documents", [".pdf", ".doc", ".docx", ".txt", ".rtf", ".odt"],
      ["document", "paper", "report", "manual"]⟩, by decide, by decide⟩

/-- Counterexample to C2 as stated: the guard of `classify_item` compares
the folder name to the category with a case-sensitive `==`.  The folder
`"images"` case-insensitively equals the category `"Images"` that
classification produces (keyword `"image"` in the folder name), yet
`classify_item` returns `"Images"`, not `"Folders"`. -/
theorem c2_counterexample :
    lowerString "images" = lowerString "Images" ∧
    classifyFolder defaultCategories "images" (some []) = "Images" ∧
    classifyItem defaultCategories (Item.folder "images" (some [])) = "Images" ∧
    ("Images" : String) ≠ "Folders" :=
  ⟨by decide, by decide, by decide, by decide⟩

/-- Claim C2 as amended: the same-name guard fires exactly on a
case-sensitively equal name — a folder whose name equals (exact string
comparison) the category that `_classify_folder` produces classifies as
`"Folders"`; in particular a folder literally named `"Images"` never
classifies as `"Images"`. -/
theorem c2_same_name_guard :
    (∀ (cats : List CategoryRule) (name : String) (children : Option (List Child)),
      name = classifyFolder cats name children →
      classifyItem cats (Item.folder name children) = "Folders") ∧
    (∀ children, classifyItem defaultCategories (Item.folder "Images" children) = "Folders") := by
  constructor
  · intro cats name children h
    simp only [classifyItem]
    rw [if_pos (by simpa using h)]
  · intro children
    have hm : folderNameMatch defaultCategories (lowerString "Images") = some "Images" := by
      decide
    have hf : classifyFolder defaultCategories "Images" children = "Images" := by
      simp only [classifyFolder, hm]
    simp only [classifyItem, hf]
    rw [if_pos (by decide)]

/-- Witness for C2 (amended): a folder named exactly like its computed
category is redirected to `"Folders"`. -/
theorem c2_witness :
    classifyItem [] (Item.folder "Folders" none) = "Folders" :=
  c2_same_name_guard.1 [] "Folders" none (by decide)

/-- Counterexample to C6 as stated: the `0.5` bonus of
`_classify_shortcut` tests the keyword against the shortcut stem and its
whitespace-split words, not the step-4 word-boundary test on the combined
text.  For the shortcut `xpaperx.lnk` with target stem `"music"`, the
source returns `"Documents"`, while step-4 scoring on the combined text
(as the claim describes) would return `"Audio"` thanks to the
`" music"`-boundary bonus. -/
theorem c6_counterexample :
    classifyShortcut defaultCategories "xpaperx" (some "music") = "Documents" ∧
    classifyShortcutAsSpecified defaultCategories "xpaperx" (some "music") = "Audio" ∧
    ("Documents" : String) ≠ "Audio" :=
  ⟨by decide, by decide, by decide⟩

/-- Claim C6 as amended: shortcut classification scores categories against
the combined lowercase text (shortcut stem, space, resolved target stem —
or the shortcut stem alone), awarding `+1` (scaled `+2`) per keyword
occurring in the combined text and the `0.5` (scaled `+1`) bonus when the
keyword equals the shortcut stem or one of its whitespace-separated words;
the first category attaining the maximal positive score wins and
`"Other"` is returned when every category scores zero. -/
theorem c6_shortcut_scoring (cats : List CategoryRule) (stem : String) (target : Option String)
    (hnames : ∀ r ∈ cats, r.name ≠ "") :
    (∀ r : CategoryRule,
      shortcutScore (combinedName stem target) (lowerString stem) r =
        2 * (r.keywords.filter (fun k => pyIn k (combinedName stem target))).length +
          (r.keywords.filter (fun k =>
            pyIn k (combinedName stem target) && shortcutBonus k (lowerString stem))).length) ∧
    ((∀ r ∈ cats, shortcutScore (combinedName stem target) (lowerString stem) r = 0) →
      classifyShortcut cats stem target = "Other") ∧
    ((∃ r ∈ cats, 0 < shortcutScore (combinedName stem target) (lowerString stem) r) →
      ∃ pre r post, cats = pre ++ r :: post ∧
        classifyShortcut cats stem target = r.name ∧
        0 < shortcutScore (combinedName stem target) (lowerString stem) r ∧
        (∀ r' ∈ pre, shortcutScore (combinedName stem target) (lowerString stem) r' <
          shortcutScore (combinedName stem target) (lowerString stem) r) ∧
        (∀ r' ∈ post, shortcutScore (combinedName stem target) (lowerString stem) r' ≤
          shortcutScore (combinedName stem target) (lowerString stem) r)) := by
  refine ⟨?_, ?_, ?_⟩
  · intro r
    simpa using score_foldl (fun k => pyIn k (combinedName stem target))
      (fun k => shortcutBonus k (lowerString stem)) r.keywords 0
  · intro hall
    have h0 : bestLoop (shortcutScore (combinedName stem target) (lowerString stem))
        cats none 0 = (none, 0) :=
      bestLoop_of_all_le _ cats none 0 fun r hr => Nat.le_of_eq (hall r hr)
    simp only [classifyShortcut, h0]
  · intro hex
    rcases bestLoop_spec (shortcutScore (combinedName stem target) (lowerString stem))
        cats none 0 with ⟨-, hall⟩ | ⟨pre, r, post, hsplit, hgt, hpre, hpost, heq⟩
    · obtain ⟨r, hr, hpos⟩ := hex
      have := hall r hr
      omega
    · refine ⟨pre, r, post, hsplit, ?_, hgt, hpre, hpost⟩
      have hrmem : r ∈ cats := by
        rw [hsplit]
        exact List.mem_append.mpr (Or.inr (List.mem_cons_self r post))
      have hname : r.name ≠ "" := hnames r hrmem
      simp only [classifyShortcut, heq]
      rw [if_pos ⟨hname, hgt⟩]

/-- Witness for C6 (amended): the shortcut `report.lnk` without target
classifies `"Documents"`, the first category attaining the maximal
score. -/
theorem c6_witness :
    ∃ pre r post, defaultCategories = pre ++ r :: post ∧
      classifyShortcut defaultCategories "report" none = r.name ∧
      0 < shortcutScore (combinedName "report" none) (lowerString "report") r ∧
      (∀ r' ∈ pre, shortcutScore (combinedName "report" none) (lowerString "report") r' <
        shortcutScore (combinedName "report" none) (lowerString "report") r) ∧
      (∀ r' ∈ post, shortcutScore (combinedName "report" none) (lowerString "report") r' ≤
        shortcutScore (combinedName "report" none) (lowerString "report") r) :=
  (c6_shortcut_scoring defaultCategories "report" none (by decide)).2.2
    ⟨⟨"Documents", [".pdf", ".doc", ".docx", ".txt", ".rtf", ".odt"],
      ["document", "paper", "report", "manual"]⟩, by decide, by decide⟩

/-- Claim C1: classification is total — under any category table whose
names are non-empty (the default table in particular) every item receives
a non-empty label, and a file matched by no extension rule, no keyword and
no MIME rule receives `"Other"`. -/
theorem c1_totality :
    (∀ cats : List CategoryRule, (∀ r ∈ cats, r.name ≠ "") →
      ∀ it : Item, classifyItem cats it ≠ "") ∧
    (∀ (cats : List CategoryRule) (fd : FileDesc),
      lowerString fd.ext ≠ ".lnk" →
      extPhase cats (lowerString fd.ext) (lowerString fd.stem) = none →
      (∀ r ∈ cats, fileScore (lowerString fd.stem) r = 0) →
      (∀ m, fd.mimeMain = some m → m ≠ "image" ∧ m ≠ "video" ∧ m ≠ "audio" ∧ m ≠ "text") →
      classifyFile cats fd = "Other") := by
  constructor
  · intro cats hnames it
    rcases classifyItem_cases cats it with ⟨r, hr, hn⟩ | h | h | h | h
    · rw [← hn]; exact hnames r hr
    · rw [h]; decide
    · rw [h]; decide
    · rw [h]; decide
    · rw [h]; decide
  · intro cats fd hlnk hext hscore hmime
    have h0 : bestLoop (fileScore (lowerString fd.stem)) cats none 0 = (none, 0) :=
      bestLoop_of_all_le _ cats none 0 fun r hr => Nat.le_of_eq (hscore r hr)
    have hmf : mimeFallback fd.mimeMain = "Other" := by
      rcases hm : fd.mimeMain with _ | m
      · rfl
      · obtain ⟨h1, h2, h3, h4⟩ := hmime m hm
        simp [mimeFallback, h1, h2, h3, h4]
    simp only [classifyFile, hext]
    rw [if_neg (by simpa using hlnk)]
    simp only [keywordPhase, h0]
    exact hmf

/-- Witness for C1: a file matching nothing classifies `"Other"` (and its
label is non-empty). -/
theorem c1_witness :
    classifyItem defaultCategories (Item.file ⟨"zzzqq", ".zzz", none, none⟩) ≠ "" ∧
    classifyFile defaultCategories ⟨"zzzqq", ".zzz", none, none⟩ = "Other" :=
  ⟨c1_totality.1 defaultCategories (by decide) (Item.file ⟨"zzzqq", ".zzz", none, none⟩),
   c1_totality.2 defaultCategories ⟨"zzzqq", ".zzz", none, none⟩ (by decide) (by decide)
     (by decide) (by intro m hm; simp at hm)⟩

/-- Keeping only the file children before extracting file payloads changes
nothing. -/
theorem filterMap_asFile_filter : ∀ cs : List Child,
    (cs.filter Child.isFile).filterMap Child.asFile = cs.filterMap Child.asFile
  | [] => rfl
  | ch :: cs => by
    cases ch <;> simp [Child.isFile, Child.asFile, filterMap_asFile_filter cs]

/-- Claim C7: for a folder with no keyword-in-folder-name match, content
analysis looks only at the immediate file children (sub-folders are never
counted), classifies each through the file classifier and tallies; the
folder takes a category exactly when strictly more than 60 % of the file
children classify to it (`5 · count > 3 · total`), and a folder with no
file children or with no such dominant category classifies `"Folders"`. -/
theorem c7_folder_majority (cats : List CategoryRule) (name : String) (children : List Child)
    (hname : folderNameMatch cats (lowerString name) = none) :
    (classifyFolder cats name (some children) =
      classifyFolder cats name (some (children.filter Child.isFile))) ∧
    (children.filterMap Child.asFile = [] →
      classifyFolder cats name (some children) = "Folders") ∧
    (∀ c : String,
      3 * (children.filterMap Child.asFile).length <
        5 * ((children.filterMap Child.asFile).map (classifyFile cats)).count c →
      classifyFolder cats name (some children) = c) ∧
    ((∀ c : String,
        5 * ((children.filterMap Child.asFile).map (classifyFile cats)).count c ≤
          3 * (children.filterMap Child.asFile).length) →
      classifyFolder cats name (some children) = "Folders") := by
  refine ⟨?_, ?_, ?_, ?_⟩
  · simp only [classifyFolder, hname, filterMap_asFile_filter]
  · intro hfe
    simp only [classifyFolder, hname, hfe]
    simp
  · intro c hthr
    have hlen : ((children.filterMap Child.asFile).map (classifyFile cats)).length =
        (children.filterMap Child.asFile).length := List.length_map _ _
    have hcle : ((children.filterMap Child.asFile).map (classifyFile cats)).count c ≤
        (children.filterMap Child.asFile).length := by
      rw [← hlen]; exact List.count_le_length c _
    have hTpos : 0 < (children.filterMap Child.asFile).length := by omega
    have hcnz : ((children.filterMap Child.asFile).map (classifyFile cats)).count c ≠ 0 := by
      omega
    have hne : tallyList ((children.filterMap Child.asFile).map (classifyFile cats)) ≠ [] := by
      intro hnil
      apply hcnz
      rw [← tcount_tallyList, hnil]
      rfl
    obtain ⟨e, hme⟩ := maxEntry_isSome _ hne
    obtain ⟨hmem, hbound⟩ := maxEntry_spec _ _ hme
    have he2 : e.2 = ((children.filterMap Child.asFile).map (classifyFile cats)).count e.1 := by
      rw [← tcount_tallyList]
      exact (tcount_of_mem _ (tallyList_nodup _) e hmem).symm
    have hce : (c, ((children.filterMap Child.asFile).map (classifyFile cats)).count c) ∈
        tallyList ((children.filterMap Child.asFile).map (classifyFile cats)) := by
      have h1 : tcount (tallyList ((children.filterMap Child.asFile).map (classifyFile cats)))
          c ≠ 0 := by rw [tcount_tallyList]; exact hcnz
      have h2 := tcount_mem c _ h1
      rwa [tcount_tallyList] at h2
    have hcle2 : ((children.filterMap Child.asFile).map (classifyFile cats)).count c ≤ e.2 := by
      simpa using hbound _ hce
    by_cases heq : e.1 = c
    · have hthr2 : 3 * (children.filterMap Child.asFile).length < 5 * e.2 := by omega
      have hres : classifyFolder cats name (some children) = e.1 := by
        simp only [classifyFolder, hname, hme]
        rw [if_pos hTpos, if_pos hthr2]
      rw [hres, heq]
    · exfalso
      have hpair := count_pair_le e.1 c heq
        ((children.filterMap Child.asFile).map (classifyFile cats))
      omega
  · intro hall
    by_cases hTpos : 0 < (children.filterMap Child.asFile).length
    · rcases hme : maxEntry (tallyList ((children.filterMap Child.asFile).map
          (classifyFile cats))) with _ | e
      · simp only [classifyFolder, hname, hme]
        rw [if_pos hTpos]
      · obtain ⟨hmem, -⟩ := maxEntry_spec _ _ hme
        have he2 : e.2 =
            ((children.filterMap Child.asFile).map (classifyFile cats)).count e.1 := by
          rw [← tcount_tallyList]
          exact (tcount_of_mem _ (tallyList_nodup _) e hmem).symm
        have hthr : ¬ 3 * (children.filterMap Child.asFile).length < 5 * e.2 := by
          have := hall e.1
          omega
        simp only [classifyFolder, hname, hme]
        rw [if_pos hTpos, if_neg hthr]
    · simp only [classifyFolder, hname]
      rw [if_neg hTpos]

/-- Witness for C7: two of three file children classify `"Images"`
(66 % > 60 %), a sub-folder among the children is ignored, and the folder
inherits `"Images"`. -/
theorem c7_witness :
    classifyFolder defaultCategories "zqx"
      (some [Child.file ⟨"a", ".jpg", none, none⟩, Child.file ⟨"b", ".jpg", none, none⟩,
             Child.file ⟨"c", ".pdf", none, none⟩, Child.dir "sub"]) = "Images" :=
  (c7_folder_majority defaultCategories "zqx"
    [Child.file ⟨"a", ".jpg", none, none⟩, Child.file ⟨"b", ".jpg", none, none⟩,
     Child.file ⟨"c", ".pdf", none, none⟩, Child.dir "sub"]
    (by decide)).2.2.1 "Images" (by decide)

/-- The category index of an absent category is the length of the order
list. -/
theorem categoryIndex_eq_length : ∀ (order : List String) (c : String),
    c ∉ order → categoryIndex order c = order.length
  | [], _, _ => rfl
  | x :: rest, c, h => by
    have hx : ¬ x = c := fun hh => h (by rw [← hh]; exact List.mem_cons_self x rest)
    simp only [categoryIndex, if_neg hx, List.length_cons]
    rw [categoryIndex_eq_length rest c fun hr => h (List.mem_cons_of_mem _ hr)]

/-- Claim C8: the grid position is exactly
`(startX + (categoryIndex % 3) · categorySpacingX + (i % maxColumns) · cellWidth,
  startY + (categoryIndex / 3) · categorySpacingY + (i / maxColumns) · cellHeight)`,
where an absent category gets index `length categoryOrder`; index 0 of the
first ordered category lands at `(startX, startY)`, index `maxColumns`
wraps to item row 1 / column 0, and all unknown categories share one
cell. -/
theorem c8_grid_position (g : GridConfig) (hm : 0 < g.maxColumns) (c : String) (i : Nat) :
    calculateGridPosition g c i =
      (g.startX + categoryIndex g.categoryOrder c % 3 * g.categorySpacingX +
         i % g.maxColumns * g.gridWidth,
       g.startY + categoryIndex g.categoryOrder c / 3 * g.categorySpacingY +
         i / g.maxColumns * g.gridHeight) ∧
    (c ∉ g.categoryOrder → categoryIndex g.categoryOrder c = g.categoryOrder.length) ∧
    (∀ rest, g.categoryOrder = c :: rest →
      calculateGridPosition g c 0 = (g.startX, g.startY)) ∧
    calculateGridPosition g c g.maxColumns =
      (g.startX + categoryIndex g.categoryOrder c % 3 * g.categorySpacingX,
       g.startY + categoryIndex g.categoryOrder c / 3 * g.categorySpacingY + g.gridHeight) ∧
    (∀ c', c ∉ g.categoryOrder → c' ∉ g.categoryOrder →
      calculateGridPosition g c i = calculateGridPosition g c' i) := by
  refine ⟨rfl, categoryIndex_eq_length g.categoryOrder c, ?_, ?_, ?_⟩
  · intro rest horder
    have hci : categoryIndex g.categoryOrder c = 0 := by
      rw [horder]; simp [categoryIndex]
    simp [calculateGridPosition, hci]
  · simp only [calculateGridPosition, Nat.mod_self, Nat.div_self hm]
    simp
  · intro c' h1 h2
    simp only [calculateGridPosition, categoryIndex_eq_length g.categoryOrder c h1,
      categoryIndex_eq_length g.categoryOrder c' h2]

/-- Witness for C8: with the default-valued grid configuration, item 8 of
the first ordered category wraps to the second row of the category block
at `(50, 150)`. -/
theorem c8_witness :
    calculateGridPosition ⟨100, 100, 50, 50, 8, 200, 150, ["Documents", "Images"]⟩
      "Documents" 8 = (50, 150) :=
  (c8_grid_position ⟨100, 100, 50, 50, 8, 200, 150, ["Documents", "Images"]⟩
    (by decide) "Documents" 8).2.2.2.1

/-- Claim C9 settles as a code bug: `_load_config` plainly intends to fall
back to the built-in defaults on any bad configuration file — it catches
`json.JSONDecodeError` and `IOError` and logs "Using defaults" — and does
so for an absent file, an unreadable file and a non-JSON file, merging a
parsed JSON object with the defaults.  But a configuration file whose
bytes do not decode makes `json.load` raise `UnicodeDecodeError`, a
`ValueError` that the `except (json.JSONDecodeError, IOError)` clause at
line 195 does not catch, and a file holding valid JSON that is not an
object passes the parse and makes the merge loop raise `TypeError` at
`config[key] = value` (line 193).  On those two inputs the exception
propagates and the run fails where the claim says the defaults are used,
so the claim is right about the intent and the code slips. -/
theorem c9_load_config_failure_paths :
    loadConfig ConfigSource.absent = LoadResult.ok defaultConfig ∧
    loadConfig ConfigSource.ioError = LoadResult.ok defaultConfig ∧
    loadConfig ConfigSource.jsonError = LoadResult.ok defaultConfig ∧
    (∀ p : ConfigDoc, loadConfig (ConfigSource.parsed p) = LoadResult.ok (mergeConfig p)) ∧
    loadConfig ConfigSource.decodeError = LoadResult.raises "UnicodeDecodeError" ∧
    loadConfig ConfigSource.parsedNonDict = LoadResult.raises "TypeError" :=
  ⟨rfl, rfl, rfl, fun _ => rfl, rfl, rfl⟩

end DesktopOrganizer
